import Mathlib

set_option maxRecDepth 4000

/-!
Verification of the RLP decoder in `runtime/stdlib/rlp/rlp.go` of the
Cadence repository.  The Go functions `ReadSize`, `DecodeString` and
`DecodeList` are embedded shallowly: byte buffers become `List Nat`
(each entry a byte value), Go `int` arithmetic becomes `Int` arithmetic
wrapped into the signed 64-bit range at every operation, out-of-range
indexing and slicing (a Go runtime panic) becomes an explicit `panics`
outcome, and the eight `Err...` values of the source become an
eight-constructor error type.
-/

/-- The eight error values of `rlp.go` (lines 42-51). -/
inductive RlpError
  | emptyInput
  | invalidStartIndex
  | incompleteInput
  | nonCanonicalInput
  | dataSizeTooLarge
  | listSizeMismatch
  | inputContainsExtraBytes
  | typeMismatch
deriving DecidableEq

/-- Outcome of one of the Go functions: a value, one of the typed errors,
or a runtime panic (out-of-range index or out-of-range slicing). -/
inductive Res (α : Type)
  | ok (val : α)
  | err (e : RlpError)
  | panics
deriving DecidableEq

/-- Two's-complement wrapping of an integer into the signed 64-bit range,
modelling overflow of Go's `int`. -/
def wrap64 (x : Int) : Int := (x + 2 ^ 63) % 2 ^ 64 - 2 ^ 63

/-- Go indexing `inp[i]`: the byte when `0 ≤ i < len(inp)`, otherwise
`none`, standing for the out-of-range panic. -/
def idx (inp : List Nat) (i : Int) : Option Nat :=
  if h : 0 ≤ i ∧ i < (inp.length : Int) then some (inp.get ⟨i.toNat, by omega⟩)
  else none

/-- Go slicing `inp[a:b]`: the sub-list when `0 ≤ a ≤ b ≤ len(inp)`,
otherwise `none`, standing for the out-of-range panic. -/
def goSlice (inp : List Nat) (a b : Int) : Option (List Nat) :=
  if 0 ≤ a ∧ a ≤ b ∧ b ≤ (inp.length : Int) then
    some ((inp.drop a.toNat).take (b - a).toNat)
  else none

/-- Big-endian value of a byte list: `binary.BigEndian.Uint64` applied to
the left-zero-padded 8-byte buffer `lenData` of `ReadSize` (lines 122-142). -/
def beVal (bs : List Nat) : Nat := bs.foldl (fun acc b => acc * 256 + b) 0

/-- `ReadSize` (rlp.go lines 53-153): classifies the RLP item of `inp`
starting at `startIndex` and returns `(isString, dataStartIndex, dataSize)`. -/
def ReadSize (inp : List Nat) (startIndex : Int) : Res (Bool × Int × Int) :=
  if inp.length = 0 then .err .emptyInput
  else if (inp.length : Int) ≤ startIndex then .err .invalidStartIndex
  else
    match idx inp startIndex with
    | none => .panics
    | some firstByte =>
      -- startIndex++ (line 64)
      let s1 : Int := wrap64 (startIndex + 1)
      -- single character space (line 67)
      if firstByte ≤ 0x7f then .ok (true, wrap64 (s1 - 1), 1)
      -- short string space (line 74)
      else if firstByte ≤ 0xb7 then .ok (true, s1, ((firstByte - 0x80 : Nat) : Int))
      -- short list space (line 81)
      else if 0xc0 ≤ firstByte ∧ firstByte ≤ 0xf7 then
        .ok (false, s1, ((firstByte - 0xc0 : Nat) : Int))
      else
        -- long string mode (lines 91-94) and long list mode (lines 97-100);
        -- `isString`/`bytesToReadForLen` keep their zero values when neither
        -- condition holds (unreachable for byte-valued input)
        let isString : Bool := decide (0xb8 ≤ firstByte ∧ firstByte ≤ 0xbf)
        let bytesToReadForLen : Int :=
          if 0xb8 ≤ firstByte ∧ firstByte ≤ 0xbf then ((firstByte - 0xb7 : Nat) : Int)
          else if 0xf8 ≤ firstByte then ((firstByte - 0xf7 : Nat) : Int)
          else 0
        -- check at least there is one more byte to read (line 103)
        if (inp.length : Int) ≤ s1 then .err .incompleteInput
        -- single extra byte for size (line 109)
        else if bytesToReadForLen = 1 then
          match idx inp s1 with
          | none => .panics
          | some b =>
            if (b : Int) ≤ 55 then .err .nonCanonicalInput
            else .ok (isString, wrap64 (s1 + 1), (b : Int))
        else
          -- several bytes case (lines 120-152): leading-zero check (line 130)
          -- happens before the end-index bounds check (line 136)
          match idx inp s1 with
          | none => .panics
          | some b0 =>
            if b0 = 0 then .err .nonCanonicalInput
            else
              let endIndex : Int := wrap64 (s1 + bytesToReadForLen)
              if (inp.length : Int) < endIndex then .err .incompleteInput
              else
                match goSlice inp s1 endIndex with
                | none => .panics
                | some lenBytes =>
                  let strLen : Int := (beVal lenBytes : Int)
                  if strLen ≤ 55 then .err .nonCanonicalInput
                  else if 2 ^ 63 - 1 < strLen then .err .dataSizeTooLarge
                  else .ok (isString, endIndex, strLen)

/-- `DecodeString` (rlp.go lines 155-184). -/
def DecodeString (inp : List Nat) (startIndex : Int) : Res (List Nat) :=
  match ReadSize inp startIndex with
  | .panics => .panics
  | .err e => .err e
  | .ok (isString, dataStartIndex, dataSize) =>
    if isString = false then .err .typeMismatch
    -- single character special case (line 166)
    else if dataSize = 1 ∧ startIndex = dataStartIndex then
      if 1 < (inp.length : Int) then .err .inputContainsExtraBytes
      else
        match idx inp dataStartIndex with
        | none => .panics
        | some b => .ok [b]
    else
      let dataEndIndex : Int := wrap64 (dataStartIndex + dataSize)
      if (inp.length : Int) < dataEndIndex then .err .incompleteInput
      else if dataEndIndex < (inp.length : Int) then .err .inputContainsExtraBytes
      else
        match goSlice inp dataStartIndex dataEndIndex with
        | none => .panics
        | some s => .ok s

/-- The sub-item loop of `DecodeList` (rlp.go lines 202-216,
`for bytesRead < listDataSize`), with explicit fuel.  The cursor
`itemStartIndex` strictly increases on every continued iteration and is
bounded by the buffer length, so `inp.length + 2` steps always suffice;
the fuel-exhaustion value is therefore never reached when `DecodeList`
supplies that fuel. -/
def DecodeListLoop (inp : List Nat) (listDataSize : Int) :
    Nat → Int → Int → List (List Nat) → Res (List (List Nat))
  | 0, _, _, _ => .err .listSizeMismatch
  | fuel + 1, itemStartIndex, bytesRead, retList =>
    if bytesRead < listDataSize then
      match ReadSize inp itemStartIndex with
      | .panics => .panics
      | .err e => .err e
      | .ok (_, itemDataStartIndex, itemSize) =>
        let itemEndIndex : Int := wrap64 (itemDataStartIndex + itemSize)
        if (inp.length : Int) < itemEndIndex then .err .incompleteInput
        else
          match goSlice inp itemDataStartIndex itemEndIndex with
          | none => .panics
          | some item =>
            DecodeListLoop inp listDataSize fuel itemEndIndex
              (wrap64 (bytesRead + wrap64 (itemEndIndex - itemStartIndex)))
              (retList ++ [item])
    else
      -- post-loop checks (lines 217-225)
      if bytesRead ≠ listDataSize then .err .listSizeMismatch
      else if itemStartIndex < (inp.length : Int) then .err .inputContainsExtraBytes
      else .ok retList

/-- `DecodeList` (rlp.go lines 186-226). -/
def DecodeList (inp : List Nat) (startIndex : Int) : Res (List (List Nat)) :=
  match ReadSize inp startIndex with
  | .panics => .panics
  | .err e => .err e
  | .ok (isString, dataStartIndex, listDataSize) =>
    if isString = true then .err .typeMismatch
    else DecodeListLoop inp listDataSize (inp.length + 2) dataStartIndex 0 []

/-- Modelled from the spec: the minimal big-endian byte representation of
a natural number (no leading zero byte), as used by the standard RLP
length encoding.  The repository contains no encoder; the spec's
round-trip law and canonicality invariant refer to the standard RLP
encoding rules. -/
def beBytes (n : Nat) : List Nat :=
  if h : n = 0 then [] else beBytes (n / 256) ++ [n % 256]
termination_by n
decreasing_by exact Nat.div_lt_self (Nat.pos_of_ne_zero h) (by norm_num)

/-- Modelled from the spec: the standard canonical RLP encoding of a byte
string (single bytes up to `0x7f` encode as themselves, strings of up to
55 bytes get a one-byte `0x80 + len` header, longer strings get a
`0xb7 + k` tag followed by the `k`-byte minimal big-endian length).
The repository contains no encoder; the spec's round-trip law and
canonicality invariant refer to these rules. -/
def encodeString (s : List Nat) : List Nat :=
  if s.length = 1 ∧ s.headI ≤ 0x7f then s
  else if s.length ≤ 55 then (0x80 + s.length) :: s
  else (0xb7 + (beBytes s.length).length) :: (beBytes s.length ++ s)

/-- Modelled from the spec: the standard canonical RLP list header for a
given already-encoded payload, prefixed to it (short payloads get
`0xc0 + len`, longer ones `0xf7 + k` plus the minimal big-endian length).
The repository contains no encoder; the spec's round-trip law for
`decode_list` refers to this header. -/
def encodeListPayload (payload : List Nat) : List Nat :=
  if payload.length ≤ 55 then (0xc0 + payload.length) :: payload
  else (0xf7 + (beBytes payload.length).length) :: (beBytes payload.length ++ payload)

-- scratch checks of the embedding against the Go test file
example : ReadSize [0x00] 1 = .err .invalidStartIndex := by decide
example : ReadSize [0x7f] 0 = .ok (true, 0, 1) := by decide
example : ReadSize [0x80] 0 = .ok (true, 1, 0) := by decide
example : ReadSize [0xb7] 0 = .ok (true, 1, 55) := by decide
example : ReadSize [0xb8, 0x01] 0 = .err .nonCanonicalInput := by decide
example : ReadSize [0xb8] 0 = .err .incompleteInput := by decide
example : ReadSize [0xb8, 0x38] 0 = .ok (true, 2, 56) := by decide
example : ReadSize [0xb9, 0x01, 0x02] 0 = .ok (true, 3, 258) := by decide
example : ReadSize [0xb9, 0x01] 0 = .err .incompleteInput := by decide
example : ReadSize [0xb8, 0x00, 0xff] 0 = .err .nonCanonicalInput := by decide
example : ReadSize [0xba, 0x01, 0x00, 0x00] 0 = .ok (true, 4, 65536) := by decide
example : ReadSize [0xbf, 0x7f, 0xff, 0xff, 0xff, 0xff, 0xff, 0xff, 0xff] 0 =
    .ok (true, 9, 9223372036854775807) := by decide
example : ReadSize [0xbf, 0xff, 0xff, 0xff, 0xff, 0xff, 0xff, 0xff, 0xff] 0 =
    .err .dataSizeTooLarge := by decide
example : ReadSize [0xc0] 0 = .ok (false, 1, 0) := by decide
example : ReadSize [0xc1] 0 = .ok (false, 1, 1) := by decide
example : ReadSize [0xf8, 0x37] 0 = .err .nonCanonicalInput := by decide
example : ReadSize [0xf8, 0x38] 0 = .ok (false, 2, 56) := by decide
example : ReadSize [0xff, 0xff, 0xff, 0xff, 0xff, 0xff, 0xff, 0xff, 0xff] 0 =
    .err .dataSizeTooLarge := by decide
example : ReadSize [0x00] (-1) = .panics := by decide

example : DecodeString [0x80] 0 = .ok [] := by decide
example : DecodeString [0xc0] 0 = .err .typeMismatch := by decide
example : DecodeString [0x41] 0 = .ok [0x41] := by decide
example : DecodeString [0x41, 0x01] 0 = .err .inputContainsExtraBytes := by decide
example : DecodeString [0x83, 0x64, 0x6f, 0x67] 0 = .ok [0x64, 0x6f, 0x67] := by decide
example : DecodeString [0x83] 0 = .err .incompleteInput := by decide
example : DecodeString [0x83, 0x64, 0x6f] 0 = .err .incompleteInput := by decide
example : DecodeString [0x83, 0x64, 0x6f, 0x67, 0x01] 0 = .err .inputContainsExtraBytes := by
  decide
example : DecodeString [0x81, 0x41] 0 = .ok [0x41] := by decide
example : DecodeString [0xbf, 0x7f, 0xff, 0xff, 0xff, 0xff, 0xff, 0xff, 0xff] 0 =
    .err .inputContainsExtraBytes := by decide

example : DecodeList [0xc0] 0 = .ok [] := by decide
example : DecodeList [0x80] 0 = .err .typeMismatch := by decide
example : DecodeList [0xc1, 0xc0] 0 = .ok [[]] := by decide
example : DecodeList [0xc3, 0xc0, 0xc0, 0xc0] 0 = .ok [[], [], []] := by decide
example : DecodeList [0xc1, 0x41] 0 = .ok [[0x41]] := by decide
example : DecodeList [0xd0, 0x87, 0x41, 0x42, 0x43, 0x44, 0x45, 0x46, 0x47,
    0x87, 0x48, 0x49, 0x4a, 0x4b, 0x4c, 0x4d, 0x4e] 0 =
    .ok [[0x41, 0x42, 0x43, 0x44, 0x45, 0x46, 0x47],
         [0x48, 0x49, 0x4a, 0x4b, 0x4c, 0x4d, 0x4e]] := by decide
example : DecodeList [0xcf, 0x87, 0x41, 0x42, 0x43, 0x44, 0x45, 0x46, 0x47,
    0x87, 0x48, 0x49, 0x4a, 0x4b, 0x4c, 0x4d, 0x4e] 0 =
    .err .listSizeMismatch := by decide
example : DecodeList [0xd0, 0x87, 0x41, 0x42, 0x43, 0x44, 0x45, 0x46, 0x47,
    0x87, 0x48, 0x49, 0x4a, 0x4b, 0x4c, 0x4d, 0x4e, 0x01] 0 =
    .err .inputContainsExtraBytes := by decide
example : DecodeList [0xc8, 0x83, 0x41, 0x42, 0x43, 0x83, 0x45, 0x46, 0x47] 0 =
    .ok [[0x41, 0x42, 0x43], [0x45, 0x46, 0x47]] := by decide
example : DecodeList [0xc1] 0 = .err .invalidStartIndex := by decide
example : DecodeList [0xc9, 0x88, 0x7f, 0xff, 0xff, 0xff, 0xff, 0xff, 0xff, 0xff] 0 =
    .ok [[0x7f, 0xff, 0xff, 0xff, 0xff, 0xff, 0xff, 0xff]] := by decide
example : DecodeList [0xc9, 0xbf, 0x7f, 0xff, 0xff, 0xff, 0xff, 0xff, 0xff, 0xff] 0 =
    .panics := by decide

example : encodeString [0x41] = [0x41] := by decide
example : encodeString [] = [0x80] := by decide
example : encodeString [0x80] = [0x81, 0x80] := by decide
example : encodeListPayload [] = [0xc0] := by decide

/-! ## Arithmetic and access helper lemmas -/

theorem wrap64_eq_self {x : Int} (h1 : -(2 ^ 63) ≤ x) (h2 : x < 2 ^ 63) :
    wrap64 x = x := by
  unfold wrap64; omega

theorem wrap64_lb (x : Int) : -(2 ^ 63) ≤ wrap64 x := by
  unfold wrap64; omega

theorem wrap64_ub (x : Int) : wrap64 x < 2 ^ 63 := by
  unfold wrap64; omega

theorem wrap64_emod (x : Int) : wrap64 x % 2 ^ 64 = x % 2 ^ 64 := by
  unfold wrap64; omega

theorem goSlice_pos {inp : List Nat} {a b : Int} (h0 : 0 ≤ a) (h1 : a ≤ b)
    (h2 : b ≤ (inp.length : Int)) :
    goSlice inp a b = some ((inp.drop a.toNat).take (b - a).toNat) := by
  unfold goSlice; rw [if_pos ⟨h0, h1, h2⟩]

theorem goSlice_some {inp : List Nat} {a b : Int} {l : List Nat}
    (h : goSlice inp a b = some l) :
    0 ≤ a ∧ a ≤ b ∧ b ≤ (inp.length : Int) ∧ l = (inp.drop a.toNat).take (b - a).toNat := by
  unfold goSlice at h
  by_cases hc : 0 ≤ a ∧ a ≤ b ∧ b ≤ (inp.length : Int)
  · rw [if_pos hc] at h
    exact ⟨hc.1, hc.2.1, hc.2.2, (Option.some_injective _ h).symm⟩
  · rw [if_neg hc] at h
    exact absurd h (by simp)

theorem idx_pos {inp : List Nat} {i : Int} (h0 : 0 ≤ i) (h1 : i < (inp.length : Int)) :
    idx inp i = some (inp.get ⟨i.toNat, by omega⟩) := by
  unfold idx; rw [dif_pos ⟨h0, h1⟩]

theorem idx_neg {inp : List Nat} {i : Int} (h : i < 0) : idx inp i = none := by
  unfold idx
  rw [dif_neg]
  intro hc
  omega

theorem idx_some {inp : List Nat} {i : Int} {b : Nat} (h : idx inp i = some b) :
    0 ≤ i ∧ i < (inp.length : Int) := by
  unfold idx at h
  by_cases hc : 0 ≤ i ∧ i < (inp.length : Int)
  · exact hc
  · rw [dif_neg hc] at h; exact absurd h (by simp)

/-! ## Big-endian length representation lemmas -/

theorem beVal_shift (x : Nat) (l : List Nat) :
    l.foldl (fun acc b => acc * 256 + b) x = x * 256 ^ l.length + beVal l := by
  induction l generalizing x with
  | nil => simp [beVal]
  | cons b t ih =>
    have hb : beVal (b :: t) = b * 256 ^ t.length + beVal t := by
      show t.foldl (fun acc b => acc * 256 + b) (0 * 256 + b) = _
      rw [ih (0 * 256 + b)]
      ring
    simp only [List.foldl_cons, List.length_cons, hb]
    rw [ih (x * 256 + b)]
    ring

theorem beVal_cons (b : Nat) (t : List Nat) :
    beVal (b :: t) = b * 256 ^ t.length + beVal t := by
  show t.foldl (fun acc b => acc * 256 + b) (0 * 256 + b) = _
  rw [beVal_shift (0 * 256 + b)]
  ring

theorem beVal_lt {l : List Nat} (h : ∀ b ∈ l, b < 256) : beVal l < 256 ^ l.length := by
  induction l with
  | nil => simp [beVal]
  | cons b t ih =>
    rw [beVal_cons]
    have hb : b < 256 := h b (by simp)
    have ht : beVal t < 256 ^ t.length := ih (fun x hx => h x (by simp [hx]))
    have : b * 256 ^ t.length + beVal t < (b + 1) * 256 ^ t.length := by
      rw [Nat.succ_mul]
      omega
    calc b * 256 ^ t.length + beVal t < (b + 1) * 256 ^ t.length := this
      _ ≤ 256 * 256 ^ t.length := Nat.mul_le_mul_right _ (by omega)
      _ = 256 ^ (t.length + 1) := by rw [pow_succ]; ring
      _ = 256 ^ (b :: t).length := by simp

theorem beVal_append_singleton (l : List Nat) (a : Nat) :
    beVal (l ++ [a]) = beVal l * 256 + a := by
  unfold beVal
  rw [List.foldl_append]
  rfl

theorem beVal_beBytes (n : Nat) : beVal (beBytes n) = n := by
  induction n using Nat.strong_induction_on with
  | _ n ih =>
    by_cases h : n = 0
    · subst h; rw [beBytes]; simp [beVal]
    · rw [beBytes, dif_neg h, beVal_append_singleton,
        ih (n / 256) (Nat.div_lt_self (Nat.pos_of_ne_zero h) (by norm_num))]
      omega

theorem beBytes_eq_nil_iff (n : Nat) : beBytes n = [] ↔ n = 0 := by
  constructor
  · intro h
    by_contra hn
    rw [beBytes, dif_neg hn] at h
    exact absurd h (by simp)
  · intro h; subst h; rw [beBytes]; simp

theorem beBytes_lt (n : Nat) : ∀ b ∈ beBytes n, b < 256 := by
  induction n using Nat.strong_induction_on with
  | _ n ih =>
    by_cases h : n = 0
    · subst h; rw [beBytes]; simp
    · rw [beBytes, dif_neg h]
      intro b hb
      rcases List.mem_append.1 hb with h1 | h1
      · exact ih (n / 256) (Nat.div_lt_self (Nat.pos_of_ne_zero h) (by norm_num)) b h1
      · simp only [List.mem_singleton] at h1
        subst h1
        exact Nat.mod_lt _ (by norm_num)

theorem beBytes_length_le {n k : Nat} (h : n < 256 ^ k) : (beBytes n).length ≤ k := by
  induction k generalizing n with
  | zero =>
    simp only [pow_zero, Nat.lt_one_iff] at h
    subst h
    rw [beBytes]; simp
  | succ k ih =>
    by_cases h0 : n = 0
    · subst h0; rw [beBytes]; simp
    · rw [beBytes, dif_neg h0]
      have : n / 256 < 256 ^ k := by
        rw [Nat.div_lt_iff_lt_mul (by norm_num)]
        calc n < 256 ^ (k + 1) := h
          _ = 256 ^ k * 256 := by rw [pow_succ]
      have := ih this
      simp only [List.length_append, List.length_singleton]
      omega

theorem beBytes_length_pos {n : Nat} (h : n ≠ 0) : 1 ≤ (beBytes n).length := by
  rcases Nat.eq_zero_or_pos (beBytes n).length with h1 | h1
  · rw [List.length_eq_zero] at h1
    rw [beBytes_eq_nil_iff] at h1
    exact absurd h1 h
  · exact h1

theorem beBytes_head_ne_zero (n : Nat) (h : n ≠ 0) : (beBytes n).headI ≠ 0 := by
  induction n using Nat.strong_induction_on with
  | _ n ih =>
    rw [beBytes, dif_neg h]
    by_cases hq : n / 256 = 0
    · have : beBytes (n / 256) = [] := by rw [beBytes_eq_nil_iff]; exact hq
      rw [this, List.nil_append, List.headI]
      have : n < 256 := by omega
      omega
    · have hne : beBytes (n / 256) ≠ [] := by
        rw [ne_eq, beBytes_eq_nil_iff]; exact hq
      have := ih (n / 256) (Nat.div_lt_self (Nat.pos_of_ne_zero h) (by norm_num)) hq
      rcases List.exists_cons_of_ne_nil hne with ⟨a, t, ht⟩
      rw [ht]
      rw [ht] at this
      simpa using this

theorem beBytes_length_one_iff {n : Nat} :
    (beBytes n).length = 1 ↔ 1 ≤ n ∧ n ≤ 255 := by
  constructor
  · intro h
    constructor
    · by_contra hn
      have : n = 0 := by omega
      subst this
      rw [beBytes] at h; simp at h
    · by_contra hn
      push_neg at hn
      have h0 : n ≠ 0 := by omega
      have hq : n / 256 ≠ 0 := by omega
      rw [beBytes, dif_neg h0] at h
      simp only [List.length_append, List.length_singleton] at h
      have : (beBytes (n / 256)).length = 0 := by omega
      rw [List.length_eq_zero, beBytes_eq_nil_iff] at this
      exact absurd this hq
  · intro ⟨h1, h2⟩
    have h0 : n ≠ 0 := by omega
    rw [beBytes, dif_neg h0]
    have : n / 256 = 0 := Nat.div_eq_of_lt (by omega)
    rw [this, beBytes]
    simp

theorem beBytes_of_canonical {l : List Nat} (hne : l ≠ []) (hh : l.headI ≠ 0)
    (hb : ∀ b ∈ l, b < 256) : beBytes (beVal l) = l := by
  induction l using List.reverseRecOn with
  | nil => exact absurd rfl hne
  | append_singleton r a ih =>
    rw [beVal_append_singleton]
    have ha : a < 256 := hb a (by simp)
    rcases eq_or_ne r [] with hr | hr
    · subst hr
      have hb0 : beVal ([] : List Nat) = 0 := rfl
      rw [hb0]
      have ha0 : a ≠ 0 := by simpa [List.headI] using hh
      rw [beBytes, dif_neg (show 0 * 256 + a ≠ 0 by omega)]
      have h1 : (0 * 256 + a) / 256 = 0 := Nat.div_eq_of_lt (by omega)
      have h2 : (0 * 256 + a) % 256 = a := by omega
      rw [h1, h2, beBytes]
      simp
    · have hh' : r.headI ≠ 0 := by
        rcases List.exists_cons_of_ne_nil hr with ⟨x, t, hx⟩
        subst hx
        simpa using hh
      have hbr : ∀ b ∈ r, b < 256 := fun b h => hb b (by simp [h])
      have hvr : beVal r ≠ 0 := by
        rcases List.exists_cons_of_ne_nil hr with ⟨x, t, hx⟩
        subst hx
        rw [beVal_cons]
        have : x ≠ 0 := by simpa using hh'
        have : 1 ≤ x := Nat.pos_of_ne_zero this
        have : 256 ^ t.length ≤ x * 256 ^ t.length := Nat.le_mul_of_pos_left _ (by omega)
        have h256 : 0 < 256 ^ t.length := Nat.pos_pow_of_pos _ (by norm_num)
        omega
      have hn0 : beVal r * 256 + a ≠ 0 := by
        have := Nat.pos_of_ne_zero hvr
        omega
      rw [beBytes, dif_neg hn0]
      have h1 : (beVal r * 256 + a) / 256 = beVal r := by
        omega
      have h2 : (beVal r * 256 + a) % 256 = a := by omega
      rw [h1, h2, ih hr hh' hbr]

/-! ## Concrete claim theorems -/

/-- Claim C9: decoding the list `[0xC8, 0x83,0x41,0x42,0x43, 0x83,0x45,0x46,0x47]`
at start index 0 succeeds and returns exactly the two-element sequence
`[[0x41,0x42,0x43], [0x45,0x46,0x47]]`. -/
theorem C9_two_string_list :
    DecodeList [0xc8, 0x83, 0x41, 0x42, 0x43, 0x83, 0x45, 0x46, 0x47] 0 =
      .ok [[0x41, 0x42, 0x43], [0x45, 0x46, 0x47]] := by decide

/-- Claim C1, counterexample: `DecodeList [0xC1, 0xC0] 0` returns a
sequence of length 1 whose element is the empty slice, not the raw
encoded sub-item `[0xC0]`; the code slices
`inp[itemDataStartIndex:itemEndIndex]`, dropping the sub-item header. -/
theorem C1_counterexample :
    DecodeList [0xc1, 0xc0] 0 = .ok [[]] ∧
    ([[]] : List (List Nat)) ≠ [[0xc0]] := by decide

/-- Claim C3 (code bug): `DecodeList` is not panic-free.  The buffer
`[0xC9, 0xBF, 0x7F, 0xFF, 0xFF, 0xFF, 0xFF, 0xFF, 0xFF, 0xFF]` is a
one-byte mutation (index 1, `0x88` to `0xBF`) of the accepted encoding
`[0xC9, 0x88, 0x7F, 0xFF, 0xFF, 0xFF, 0xFF, 0xFF, 0xFF, 0xFF]`, yet on
it the sub-item end-index computation `10 + (2^63 - 1)` overflows the
signed 64-bit range, slips past the `itemEndIndex > len(inp)` check, and
the slice `inp[10:negative]` panics instead of raising one of the eight
error kinds. -/
theorem C3_mutation_panics :
    DecodeList [0xc9, 0x88, 0x7f, 0xff, 0xff, 0xff, 0xff, 0xff, 0xff, 0xff] 0 =
      .ok [[0x7f, 0xff, 0xff, 0xff, 0xff, 0xff, 0xff, 0xff]] ∧
    DecodeList [0xc9, 0xbf, 0x7f, 0xff, 0xff, 0xff, 0xff, 0xff, 0xff, 0xff] 0 =
      .panics := by decide

/-- Claim C5 (code bug): when `payload_start + payload_len` overflows the
signed 64-bit range the decoders do not fail with `IncompleteInput`:
`DecodeString` on `[0xBF, 0x7F, 0xFF, ..., 0xFF]` (header valid, declared
payload `2^63 - 1` starting at 9) reports `InputContainsExtraBytes`
because the wrapped end index is negative, and `DecodeList` on
`[0xC9, 0xBF, 0x7F, 0xFF, ..., 0xFF]` panics on the wrapped slice bound. -/
theorem C5_overflow_not_incomplete :
    DecodeString [0xbf, 0x7f, 0xff, 0xff, 0xff, 0xff, 0xff, 0xff, 0xff] 0 =
      .err .inputContainsExtraBytes ∧
    DecodeList [0xc9, 0xbf, 0x7f, 0xff, 0xff, 0xff, 0xff, 0xff, 0xff, 0xff] 0 =
      .panics ∧
    RlpError.inputContainsExtraBytes ≠ RlpError.incompleteInput := by decide

/-- Claim C7, counterexample: `DecodeList [0xC1] 0`, whose declared 1-byte
list payload lies past the end of the buffer, fails with
`InvalidStartIndex` (the sub-item `ReadSize` call starts at index
`1 = len(inp)`), not with `IncompleteInput`. -/
theorem C7_counterexample :
    DecodeList [0xc1] 0 = .err .invalidStartIndex ∧
    RlpError.invalidStartIndex ≠ RlpError.incompleteInput := by decide

/-- Claim C7, amended: payload or length-header truncation that is caught
by an end-index comparison fails with `IncompleteInput` — a truncated
string payload, a truncated sub-item payload inside a list, a truncated
multi-byte length header, and a missing length byte all do — but a list
whose declared payload lies entirely past the buffer end makes the
sub-item `ReadSize` call start at an index `≥ len(inp)` and fails with
`InvalidStartIndex` instead: `DecodeList [0xC1] 0 = InvalidStartIndex`. -/
theorem C7_amended :
    DecodeList [0xc1] 0 = .err .invalidStartIndex ∧
    DecodeString [0x83, 0x64, 0x6f] 0 = .err .incompleteInput ∧
    DecodeList [0xc2, 0x81] 0 = .err .incompleteInput ∧
    ReadSize [0xb9, 0x01] 0 = .err .incompleteInput ∧
    DecodeList [0xc1, 0xb8] 0 = .err .incompleteInput := by decide

/-- Claim C4, counterexample: the non-canonical short-string form
`[0x81, 0x41]` of the single byte `0x41 ≤ 0x7F` is accepted by
`DecodeString` (returning `[0x41]`), not rejected with
`NonCanonicalInput`; the canonical form `[0x41]` is accepted as well, so
this semantic value has two accepted encodings. -/
theorem C4_counterexample :
    DecodeString [0x81, 0x41] 0 = .ok [0x41] ∧
    DecodeString [0x41] 0 = .ok [0x41] := by decide

/-- Claim C2, counterexample: `[0x81, 0x41]` is accepted by
`DecodeString` with payload `[0x41]`, but the standard RLP encoding of
`[0x41]` is `[0x41]` itself, not the accepted buffer; and for
`DecodeList [0xC1, 0xC0]` the returned elements are `[[]]`, whose
concatenation under any standard list header gives `[0xC0]`, not the
accepted buffer. -/
theorem C2_counterexample :
    DecodeString [0x81, 0x41] 0 = .ok [0x41] ∧
    encodeString [0x41] ≠ [0x81, 0x41] ∧
    DecodeList [0xc1, 0xc0] 0 = .ok [[]] ∧
    encodeListPayload (List.foldr (· ++ ·) [] [[]]) ≠ [0xc1, 0xc0] := by decide

/-! ## Elements of a decoded list are sub-item payload slices -/

theorem DecodeListLoop_elem {inp : List Nat} {L : Int} :
    ∀ (fuel : Nat) (c br : Int) (acc items : List (List Nat)),
      DecodeListLoop inp L fuel c br acc = .ok items →
      (∀ x ∈ acc, ∃ c' b d sz, ReadSize inp c' = .ok (b, d, sz) ∧
        goSlice inp d (wrap64 (d + sz)) = some x) →
      ∀ x ∈ items, ∃ c' b d sz, ReadSize inp c' = .ok (b, d, sz) ∧
        goSlice inp d (wrap64 (d + sz)) = some x := by
  intro fuel
  induction fuel with
  | zero =>
    intro c br acc items h hacc
    rw [DecodeListLoop] at h
    exact absurd h (by simp)
  | succ n ih =>
    intro c br acc items h hacc
    rw [DecodeListLoop] at h
    by_cases hbr : br < L
    · rw [if_pos hbr] at h
      cases hrs : ReadSize inp c with
      | panics => rw [hrs] at h; exact absurd h (by simp)
      | err e => rw [hrs] at h; exact absurd h (by simp)
      | ok v =>
        obtain ⟨b, d, sz⟩ := v
        rw [hrs] at h
        simp only at h
        by_cases hend : (inp.length : Int) < wrap64 (d + sz)
        · rw [if_pos hend] at h; exact absurd h (by simp)
        · rw [if_neg hend] at h
          cases hsl : goSlice inp d (wrap64 (d + sz)) with
          | none => rw [hsl] at h; exact absurd h (by simp)
          | some item =>
            rw [hsl] at h
            refine ih _ _ _ _ h ?_
            intro x hx
            rcases List.mem_append.1 hx with hx1 | hx1
            · exact hacc x hx1
            · simp only [List.mem_singleton] at hx1
              subst hx1
              exact ⟨c, b, d, sz, hrs, hsl⟩
    · rw [if_neg hbr] at h
      by_cases hne : br ≠ L
      · rw [if_pos hne] at h; exact absurd h (by simp)
      · rw [if_neg hne] at h
        by_cases hlt : c < (inp.length : Int)
        · rw [if_pos hlt] at h; exact absurd h (by simp)
        · rw [if_neg hlt] at h
          have : acc = items := by simpa using h
          subst this
          exact hacc

/-- Claim C1 (corrected): every element returned by `DecodeList` is the
slice `inp[itemDataStartIndex:itemEndIndex]` of one sub-item, i.e. the
sub-item's payload bytes with its header stripped; in particular
`DecodeList [0xC1, 0xC0] 0` returns a sequence of length 1 whose single
element is the empty slice (the `0xC0` header is dropped). -/
theorem C1_payload_only :
    (∀ (inp : List Nat) (s : Int) (items : List (List Nat)),
      DecodeList inp s = .ok items →
      ∀ x ∈ items, ∃ c b d sz, ReadSize inp c = .ok (b, d, sz) ∧
        goSlice inp d (wrap64 (d + sz)) = some x) ∧
    DecodeList [0xc1, 0xc0] 0 = .ok [[]] := by
  constructor
  · intro inp s items h x hx
    rw [DecodeList] at h
    cases hrs : ReadSize inp s with
    | panics => rw [hrs] at h; exact absurd h (by simp)
    | err e => rw [hrs] at h; exact absurd h (by simp)
    | ok v =>
      obtain ⟨b, d, L⟩ := v
      rw [hrs] at h
      simp only at h
      by_cases hb : b = true
      · rw [if_pos hb] at h; exact absurd h (by simp)
      · rw [if_neg hb] at h
        exact DecodeListLoop_elem _ _ _ _ _ h (by simp) x hx
  · decide

/-- Closed witness for `C1_payload_only`: its universal part applied to
the concrete decode of `[0xC1, 0xC0]`. -/
theorem C1_payload_only_witness :
    ∃ c b d sz, ReadSize [0xc1, 0xc0] c = .ok (b, d, sz) ∧
      goSlice [0xc1, 0xc0] d (wrap64 (d + sz)) = some [] :=
  C1_payload_only.1 [0xc1, 0xc0] 0 [[]] (by decide) [] (by decide)

/-! ## Shape of successful and failing `ReadSize` runs -/

theorem goSlice_ne_none {inp : List Nat} {a b : Int} (h0 : 0 ≤ a) (h1 : a ≤ b)
    (h2 : b ≤ (inp.length : Int)) : goSlice inp a b ≠ none := by
  rw [goSlice_pos h0 h1 h2]
  simp

/-- Evaluation of `ReadSize` once the guards have passed and the first
byte is known: the body of rlp.go lines 63-152 as a single conditional,
with the cursor increments inlined. -/
theorem ReadSize_eval {inp : List Nat} {s : Int} {f : Nat} (h0 : inp.length ≠ 0)
    (h1 : ¬ (inp.length : Int) ≤ s) (hf : idx inp s = some f) :
    ReadSize inp s =
      (if f ≤ 0x7f then .ok (true, wrap64 (wrap64 (s + 1) - 1), 1)
      else if f ≤ 0xb7 then .ok (true, wrap64 (s + 1), ((f - 0x80 : Nat) : Int))
      else if 0xc0 ≤ f ∧ f ≤ 0xf7 then
        .ok (false, wrap64 (s + 1), ((f - 0xc0 : Nat) : Int))
      else if (inp.length : Int) ≤ wrap64 (s + 1) then .err .incompleteInput
      else if (if 0xb8 ≤ f ∧ f ≤ 0xbf then ((f - 0xb7 : Nat) : Int)
          else if 0xf8 ≤ f then ((f - 0xf7 : Nat) : Int) else 0) = 1 then
        match idx inp (wrap64 (s + 1)) with
        | none => .panics
        | some b =>
          if (b : Int) ≤ 55 then .err .nonCanonicalInput
          else .ok (decide (0xb8 ≤ f ∧ f ≤ 0xbf), wrap64 (wrap64 (s + 1) + 1), (b : Int))
      else
        match idx inp (wrap64 (s + 1)) with
        | none => .panics
        | some b0 =>
          if b0 = 0 then .err .nonCanonicalInput
          else if (inp.length : Int) < wrap64 (wrap64 (s + 1) +
              (if 0xb8 ≤ f ∧ f ≤ 0xbf then ((f - 0xb7 : Nat) : Int)
                else if 0xf8 ≤ f then ((f - 0xf7 : Nat) : Int) else 0)) then
            .err .incompleteInput
          else
            match goSlice inp (wrap64 (s + 1)) (wrap64 (wrap64 (s + 1) +
                (if 0xb8 ≤ f ∧ f ≤ 0xbf then ((f - 0xb7 : Nat) : Int)
                  else if 0xf8 ≤ f then ((f - 0xf7 : Nat) : Int) else 0))) with
            | none => .panics
            | some lenBytes =>
              if (beVal lenBytes : Int) ≤ 55 then .err .nonCanonicalInput
              else if 2 ^ 63 - 1 < (beVal lenBytes : Int) then .err .dataSizeTooLarge
              else .ok (decide (0xb8 ≤ f ∧ f ≤ 0xbf), wrap64 (wrap64 (s + 1) +
                  (if 0xb8 ≤ f ∧ f ≤ 0xbf then ((f - 0xb7 : Nat) : Int)
                    else if 0xf8 ≤ f then ((f - 0xf7 : Nat) : Int) else 0)),
                (beVal lenBytes : Int)) : Res (Bool × Int × Int)) := by
  rw [ReadSize, if_neg h0, if_neg h1, hf]

/-- Evaluation of `DecodeString` once the `ReadSize` call is known to
succeed: the body of rlp.go lines 161-183 as a single conditional. -/
theorem DecodeString_eval_ok {inp : List Nat} {s : Int} {b : Bool} {d sz : Int}
    (hrs : ReadSize inp s = .ok (b, d, sz)) :
    DecodeString inp s =
      (if b = false then .err .typeMismatch
      else if sz = 1 ∧ s = d then
        if 1 < (inp.length : Int) then .err .inputContainsExtraBytes
        else match idx inp d with
          | none => .panics
          | some x => .ok [x]
      else if (inp.length : Int) < wrap64 (d + sz) then .err .incompleteInput
      else if wrap64 (d + sz) < (inp.length : Int) then .err .inputContainsExtraBytes
      else match goSlice inp d (wrap64 (d + sz)) with
        | none => .panics
        | some t => .ok t : Res (List Nat)) := by
  rw [DecodeString, hrs]

/-- Under the Go-side invariants (byte-valued entries, buffer length below
the maximal `int` minus the 8 possible length bytes) and a non-negative
start index, `ReadSize` either fails with a typed error or succeeds, and
on success the whole item header lies inside the buffer: the tag byte is
at `s < len`, the payload starts at `d` with `s ≤ d ≤ len`, and the
returned size is a machine-representable non-negative count. -/
theorem ReadSize_shape {inp : List Nat} {s : Int} (hb : ∀ x ∈ inp, x ≤ 255)
    (hlen : (inp.length : Int) ≤ 2 ^ 63 - 9) (hs : 0 ≤ s) :
    (∃ e, ReadSize inp s = .err e) ∨
    (∃ b d sz, ReadSize inp s = .ok (b, d, sz) ∧ s < (inp.length : Int) ∧
      s ≤ d ∧ d ≤ (inp.length : Int) ∧ 0 ≤ sz ∧ sz ≤ 2 ^ 63 - 1) := by
  by_cases h0 : inp.length = 0
  · exact .inl ⟨.emptyInput, by rw [ReadSize, if_pos h0]⟩
  by_cases h1 : (inp.length : Int) ≤ s
  · exact .inl ⟨.invalidStartIndex, by rw [ReadSize, if_neg h0, if_pos h1]⟩
  push_neg at h1
  have hidx : idx inp s = some (inp.get ⟨s.toNat, by omega⟩) := idx_pos hs h1
  set f := inp.get ⟨s.toNat, by omega⟩ with hfdef
  have hf : f ≤ 255 := hb f (List.get_mem _ _ _)
  have hrw0 : ReadSize inp s =
      (if f ≤ 0x7f then .ok (true, wrap64 (wrap64 (s + 1) - 1), 1)
      else if f ≤ 0xb7 then .ok (true, wrap64 (s + 1), ((f - 0x80 : Nat) : Int))
      else if 0xc0 ≤ f ∧ f ≤ 0xf7 then
        .ok (false, wrap64 (s + 1), ((f - 0xc0 : Nat) : Int))
      else
        let isString : Bool := decide (0xb8 ≤ f ∧ f ≤ 0xbf)
        let bytesToReadForLen : Int :=
          if 0xb8 ≤ f ∧ f ≤ 0xbf then ((f - 0xb7 : Nat) : Int)
          else if 0xf8 ≤ f then ((f - 0xf7 : Nat) : Int)
          else 0
        if (inp.length : Int) ≤ wrap64 (s + 1) then .err .incompleteInput
        else if bytesToReadForLen = 1 then
          match idx inp (wrap64 (s + 1)) with
          | none => .panics
          | some b =>
            if (b : Int) ≤ 55 then .err .nonCanonicalInput
            else .ok (isString, wrap64 (wrap64 (s + 1) + 1), (b : Int))
        else
          match idx inp (wrap64 (s + 1)) with
          | none => .panics
          | some b0 =>
            if b0 = 0 then .err .nonCanonicalInput
            else
              let endIndex : Int := wrap64 (wrap64 (s + 1) + bytesToReadForLen)
              if (inp.length : Int) < endIndex then .err .incompleteInput
              else
                match goSlice inp (wrap64 (s + 1)) endIndex with
                | none => .panics
                | some lenBytes =>
                  let strLen : Int := (beVal lenBytes : Int)
                  if strLen ≤ 55 then .err .nonCanonicalInput
                  else if 2 ^ 63 - 1 < strLen then .err .dataSizeTooLarge
                  else .ok (isString, endIndex, strLen) : Res (Bool × Int × Int)) := by
    rw [ReadSize, if_neg h0, if_neg (by omega), hidx]
  have hs1 : wrap64 (s + 1) = s + 1 := wrap64_eq_self (by omega) (by omega)
  rw [hs1] at hrw0
  by_cases hc1 : f ≤ 0x7f
  · rw [if_pos hc1] at hrw0
    have hd : wrap64 (s + 1 - 1) = s := by
      rw [show s + 1 - 1 = s by ring]
      exact wrap64_eq_self (by omega) (by omega)
    rw [hd] at hrw0
    exact .inr ⟨true, s, 1, hrw0, h1, le_refl _, by omega, by omega, by omega⟩
  rw [if_neg hc1] at hrw0
  by_cases hc2 : f ≤ 0xb7
  · rw [if_pos hc2] at hrw0
    refine .inr ⟨true, s + 1, ((f - 0x80 : Nat) : Int), hrw0, h1, by omega, by omega,
      by omega, by omega⟩
  rw [if_neg hc2] at hrw0
  by_cases hc3 : 0xc0 ≤ f ∧ f ≤ 0xf7
  · rw [if_pos hc3] at hrw0
    refine .inr ⟨false, s + 1, ((f - 0xc0 : Nat) : Int), hrw0, h1, by omega, by omega,
      by omega, by omega⟩
  rw [if_neg hc3] at hrw0
  simp only at hrw0
  -- long-form header: the number of length bytes is between 1 and 8
  set k : Int := if 0xb8 ≤ f ∧ f ≤ 0xbf then ((f - 0xb7 : Nat) : Int)
    else if 0xf8 ≤ f then ((f - 0xf7 : Nat) : Int) else 0 with hkdef
  have hk : 1 ≤ k ∧ k ≤ 8 := by
    rw [hkdef]
    by_cases hA : 0xb8 ≤ f ∧ f ≤ 0xbf
    · rw [if_pos hA]; omega
    · rw [if_neg hA, if_pos (by omega : 0xf8 ≤ f)]; omega
  by_cases hc4 : (inp.length : Int) ≤ s + 1
  · rw [if_pos hc4] at hrw0
    exact .inl ⟨.incompleteInput, hrw0⟩
  rw [if_neg hc4] at hrw0
  push_neg at hc4
  have hidx1 : idx inp (s + 1) = some (inp.get ⟨(s + 1).toNat, by omega⟩) :=
    idx_pos (by omega) hc4
  by_cases hc5 : k = 1
  · rw [if_pos hc5, hidx1] at hrw0
    simp only at hrw0
    set b := inp.get ⟨(s + 1).toNat, by omega⟩ with hbdef
    by_cases hc6 : (b : Int) ≤ 55
    · rw [if_pos hc6] at hrw0
      exact .inl ⟨.nonCanonicalInput, hrw0⟩
    · rw [if_neg hc6] at hrw0
      have hb' : b ≤ 255 := hb b (List.get_mem _ _ _)
      have hd : wrap64 (s + 1 + 1) = s + 2 := by
        rw [show s + 1 + 1 = s + 2 by ring]
        exact wrap64_eq_self (by omega) (by omega)
      rw [hd] at hrw0
      exact .inr ⟨_, s + 2, (b : Int), hrw0, h1, by omega, by omega, by omega, by omega⟩
  rw [if_neg hc5, hidx1] at hrw0
  simp only at hrw0
  set b0 := inp.get ⟨(s + 1).toNat, by omega⟩ with hb0def
  by_cases hc6 : b0 = 0
  · rw [if_pos hc6] at hrw0
    exact .inl ⟨.nonCanonicalInput, hrw0⟩
  rw [if_neg hc6] at hrw0
  have hend : wrap64 (s + 1 + k) = s + 1 + k := wrap64_eq_self (by omega) (by omega)
  rw [hend] at hrw0
  by_cases hc7 : (inp.length : Int) < s + 1 + k
  · rw [if_pos hc7] at hrw0
    exact .inl ⟨.incompleteInput, hrw0⟩
  rw [if_neg hc7] at hrw0
  push_neg at hc7
  rw [goSlice_pos (by omega) (by omega) (by omega)] at hrw0
  simp only at hrw0
  set lenBytes := (inp.drop (s + 1).toNat).take (s + 1 + k - (s + 1)).toNat with hlbdef
  by_cases hc8 : (beVal lenBytes : Int) ≤ 55
  · rw [if_pos hc8] at hrw0
    exact .inl ⟨.nonCanonicalInput, hrw0⟩
  rw [if_neg hc8] at hrw0
  by_cases hc9 : 2 ^ 63 - 1 < (beVal lenBytes : Int)
  · rw [if_pos hc9] at hrw0
    exact .inl ⟨.dataSizeTooLarge, hrw0⟩
  rw [if_neg hc9] at hrw0
  exact .inr ⟨_, s + 1 + k, (beVal lenBytes : Int), hrw0, h1, by omega, by omega,
    by omega, by omega⟩

/-- Claim C6: on every successful return of `ReadSize`, the item header
(tag byte plus any length bytes) lies within the buffer — the tag is at
`s < len(inp)` and the payload start satisfies `s ≤ d ≤ len(inp)` — while
`payload_start + payload_len ≤ len(inp)` is not required: on the 9-byte
buffer `[0xBF, 0x7F, 0xFF, ..., 0xFF]` it succeeds with
`(true, 9, 2^63 - 1)` although the declared payload extends far past the
buffer end. -/
theorem C6_header_within_bounds :
    (∀ (inp : List Nat) (s : Int) (b : Bool) (d sz : Int),
      (∀ x ∈ inp, x ≤ 255) → (inp.length : Int) ≤ 2 ^ 63 - 9 → 0 ≤ s →
      ReadSize inp s = .ok (b, d, sz) →
      s < (inp.length : Int) ∧ s ≤ d ∧ d ≤ (inp.length : Int)) ∧
    ReadSize [0xbf, 0x7f, 0xff, 0xff, 0xff, 0xff, 0xff, 0xff, 0xff] 0 =
      .ok (true, 9, 2 ^ 63 - 1) := by
  constructor
  · intro inp s b d sz hb hlen hs h
    rcases ReadSize_shape hb hlen hs with ⟨e, he⟩ | ⟨b', d', sz', h', h1, h2, h3, _, _⟩
    · rw [he] at h; exact absurd h (by simp)
    · have h2' := h'.symm.trans h
      simp only [Res.ok.injEq, Prod.mk.injEq] at h2'
      obtain ⟨-, hd, -⟩ := h2'
      exact ⟨h1, hd ▸ h2, hd ▸ h3⟩
  · decide

/-- Closed witness for `C6_header_within_bounds`: its universal part
applied to the 9-byte long-string header of the concrete part. -/
theorem C6_header_within_bounds_witness :
    (0 : Int) < ((List.length [0xbf, 0x7f, 0xff, 0xff, 0xff, 0xff, 0xff, 0xff, 0xff] : Nat) : Int) ∧
      (0 : Int) ≤ 9 ∧
      (9 : Int) ≤ ((List.length [0xbf, 0x7f, 0xff, 0xff, 0xff, 0xff, 0xff, 0xff, 0xff] : Nat) : Int) :=
  C6_header_within_bounds.1 [0xbf, 0x7f, 0xff, 0xff, 0xff, 0xff, 0xff, 0xff, 0xff] 0 true 9
    (2 ^ 63 - 1) (by decide) (by decide) (by decide) C6_header_within_bounds.2

/-- Claim C10: with a non-negative start index every buffer access in
`ReadSize` is in range (no panic), but the guard `startIndex >= len(inp)`
does not protect against negative indices: on any non-empty buffer a
negative start index reaches the unguarded read `inp[startIndex]` and
panics, in `ReadSize` and hence in `DecodeString` and `DecodeList` as
well, so `startIndex ≥ 0` is a genuine precondition of all three. -/
theorem C10_negative_start_panics :
    (∀ (inp : List Nat) (s : Int), (∀ x ∈ inp, x ≤ 255) →
      (inp.length : Int) ≤ 2 ^ 63 - 9 → 0 ≤ s → ReadSize inp s ≠ .panics) ∧
    (∀ (inp : List Nat) (s : Int), inp ≠ [] → s < 0 →
      ReadSize inp s = .panics ∧ DecodeString inp s = .panics ∧
        DecodeList inp s = .panics) := by
  constructor
  · intro inp s hb hlen hs h
    rcases ReadSize_shape hb hlen hs with ⟨e, he⟩ | ⟨b, d, sz, h', -, -, -, -, -⟩
    · rw [he] at h; exact absurd h (by simp)
    · rw [h'] at h; exact absurd h (by simp)
  · intro inp s hne hs
    have h0 : inp.length ≠ 0 := fun hc => hne (List.length_eq_zero.mp hc)
    have hrs : ReadSize inp s = .panics := by
      rw [ReadSize, if_neg h0, if_neg (by omega : ¬ (inp.length : Int) ≤ s), idx_neg hs]
    exact ⟨hrs, by rw [DecodeString, hrs], by rw [DecodeList, hrs]⟩

/-- Closed witness for `C10_negative_start_panics`: no panic at a valid
start index, panic at the negative start index `-1`. -/
theorem C10_negative_start_panics_witness :
    ReadSize [0x41] 0 ≠ .panics ∧ DecodeList [0x41] (-1) = .panics :=
  ⟨C10_negative_start_panics.1 [0x41] 0 (by decide) (by decide) (by decide),
   (C10_negative_start_panics.2 [0x41] (-1) (by decide) (by decide)).2.2⟩

/-! ## Full inversion of a successful `ReadSize` run -/

/-- Inversion of a successful `ReadSize` run on a byte buffer: the
returned triple arises from the single-byte, short-string, short-list or
long form, and in the long form the length bytes `lenBytes` are the slice
between the tag byte and the payload, with no leading zero unless there
is exactly one of them. -/
theorem ReadSize_ok_inv {inp : List Nat} {s : Int} {b : Bool} {d sz : Int}
    (hb : ∀ x ∈ inp, x ≤ 255) (hlen : (inp.length : Int) ≤ 2 ^ 63 - 9) (hs : 0 ≤ s)
    (h : ReadSize inp s = .ok (b, d, sz)) :
    ∃ f, idx inp s = some f ∧ s < (inp.length : Int) ∧
      ((f ≤ 0x7f ∧ b = true ∧ d = s ∧ sz = 1) ∨
       (0x80 ≤ f ∧ f ≤ 0xb7 ∧ b = true ∧ d = s + 1 ∧ sz = ((f - 0x80 : Nat) : Int)) ∨
       (0xc0 ≤ f ∧ f ≤ 0xf7 ∧ b = false ∧ d = s + 1 ∧ sz = ((f - 0xc0 : Nat) : Int)) ∨
       (∃ k : Nat, 1 ≤ k ∧ k ≤ 8 ∧
         ((0xb8 ≤ f ∧ f ≤ 0xbf ∧ b = true ∧ k = f - 0xb7) ∨
          (0xf8 ≤ f ∧ f ≤ 0xff ∧ b = false ∧ k = f - 0xf7)) ∧
         d = s + 1 + (k : Int) ∧ d ≤ (inp.length : Int) ∧ s + 1 < (inp.length : Int) ∧
         ∃ lenBytes, goSlice inp (s + 1) d = some lenBytes ∧
           lenBytes.length = k ∧ sz = (beVal lenBytes : Int) ∧
           56 ≤ sz ∧ sz ≤ 2 ^ 63 - 1 ∧ (k = 1 ∨ lenBytes.headI ≠ 0))) := by
  have h0 : inp.length ≠ 0 := by
    intro hc
    rw [ReadSize, if_pos hc] at h
    exact absurd h (by simp)
  have h1 : ¬ (inp.length : Int) ≤ s := by
    intro hc
    rw [ReadSize, if_neg h0, if_pos hc] at h
    exact absurd h (by simp)
  push_neg at h1
  have hidx : idx inp s = some (inp.get ⟨s.toNat, by omega⟩) := idx_pos hs h1
  set f := inp.get ⟨s.toNat, by omega⟩ with hfdef
  have hf : f ≤ 255 := hb f (List.get_mem _ _ _)
  refine ⟨f, hidx, h1, ?_⟩
  rw [ReadSize, if_neg h0, if_neg (by omega), hidx] at h
  dsimp only at h
  have hs1 : wrap64 (s + 1) = s + 1 := wrap64_eq_self (by omega) (by omega)
  rw [hs1] at h
  by_cases hc1 : f ≤ 0x7f
  · rw [if_pos hc1] at h
    have hd0 : wrap64 (s + 1 - 1) = s := by
      rw [show s + 1 - 1 = s by ring]
      exact wrap64_eq_self (by omega) (by omega)
    rw [hd0] at h
    simp only [Res.ok.injEq, Prod.mk.injEq] at h
    exact .inl ⟨hc1, h.1.symm, h.2.1.symm, h.2.2.symm⟩
  rw [if_neg hc1] at h
  by_cases hc2 : f ≤ 0xb7
  · rw [if_pos hc2] at h
    simp only [Res.ok.injEq, Prod.mk.injEq] at h
    exact .inr (.inl ⟨by omega, hc2, h.1.symm, h.2.1.symm, h.2.2.symm⟩)
  rw [if_neg hc2] at h
  by_cases hc3 : 0xc0 ≤ f ∧ f ≤ 0xf7
  · rw [if_pos hc3] at h
    simp only [Res.ok.injEq, Prod.mk.injEq] at h
    exact .inr (.inr (.inl ⟨hc3.1, hc3.2, h.1.symm, h.2.1.symm, h.2.2.symm⟩))
  rw [if_neg hc3] at h
  refine .inr (.inr (.inr ?_))
  obtain ⟨kk, bv, hmode, hkk1, hkk8, hdec, hkeq⟩ :
      ∃ (kk : Nat) (bv : Bool),
        ((0xb8 ≤ f ∧ f ≤ 0xbf ∧ bv = true ∧ kk = f - 0xb7) ∨
         (0xf8 ≤ f ∧ f ≤ 0xff ∧ bv = false ∧ kk = f - 0xf7)) ∧
        1 ≤ kk ∧ kk ≤ 8 ∧ decide (0xb8 ≤ f ∧ f ≤ 0xbf) = bv ∧
        (if 0xb8 ≤ f ∧ f ≤ 0xbf then ((f - 0xb7 : Nat) : Int)
          else if 0xf8 ≤ f then ((f - 0xf7 : Nat) : Int) else 0) = ((kk : Nat) : Int) := by
    by_cases hA : 0xb8 ≤ f ∧ f ≤ 0xbf
    · exact ⟨f - 0xb7, true, .inl ⟨hA.1, hA.2, rfl, rfl⟩, by omega, by omega,
        by simp [hA], by rw [if_pos hA]⟩
    · have hB : 0xf8 ≤ f := by omega
      exact ⟨f - 0xf7, false, .inr ⟨hB, by omega, rfl, rfl⟩, by omega, by omega,
        by simp [hA], by rw [if_neg hA, if_pos hB]⟩
  rw [hdec, hkeq] at h
  by_cases hc4 : (inp.length : Int) ≤ s + 1
  · rw [if_pos hc4] at h
    exact absurd h (by simp)
  rw [if_neg hc4] at h
  push_neg at hc4
  have hidx1 : idx inp (s + 1) = some (inp.get ⟨(s + 1).toNat, by omega⟩) :=
    idx_pos (by omega) hc4
  have hdrop : inp.drop (s + 1).toNat = inp.get ⟨(s + 1).toNat, by omega⟩ ::
      inp.drop ((s + 1).toNat + 1) := by
    rw [List.drop_eq_getElem_cons (by omega)]
    simp [List.get_eq_getElem]
  set b1 := inp.get ⟨(s + 1).toNat, by omega⟩ with hb1def
  have hb1 : b1 ≤ 255 := hb b1 (List.get_mem _ _ _)
  by_cases hc5 : ((kk : Nat) : Int) = 1
  · rw [if_pos hc5, hidx1] at h
    dsimp only at h
    by_cases hc6 : (b1 : Int) ≤ 55
    · rw [if_pos hc6] at h
      exact absurd h (by simp)
    rw [if_neg hc6] at h
    have hw : wrap64 (s + 1 + 1) = s + 2 := by
      rw [show s + 1 + 1 = s + 2 by ring]
      exact wrap64_eq_self (by omega) (by omega)
    rw [hw] at h
    simp only [Res.ok.injEq, Prod.mk.injEq] at h
    obtain ⟨hbv, hd, hsz⟩ := h
    have hkk : kk = 1 := by omega
    have hsl : goSlice inp (s + 1) (s + 2) = some [b1] := by
      rw [goSlice_pos (by omega) (by omega) (by omega)]
      have h2 : (s + 2 - (s + 1)).toNat = 1 := by omega
      rw [h2, hdrop]
      rfl
    have hbe : beVal [b1] = b1 := by simp [beVal]
    refine ⟨kk, hkk1, hkk8, hbv ▸ hmode, by omega, by omega, hc4, [b1], ?_, by simp [hkk],
      by rw [← hsz, hbe], by omega, by omega, .inl hkk⟩
    rw [← hd]
    exact hsl
  rw [if_neg hc5, hidx1] at h
  dsimp only at h
  by_cases hc6 : b1 = 0
  · rw [if_pos hc6] at h
    exact absurd h (by simp)
  rw [if_neg hc6] at h
  have hw : wrap64 (s + 1 + (kk : Int)) = s + 1 + (kk : Int) :=
    wrap64_eq_self (by omega) (by omega)
  rw [hw] at h
  by_cases hc7 : (inp.length : Int) < s + 1 + (kk : Int)
  · rw [if_pos hc7] at h
    exact absurd h (by simp)
  rw [if_neg hc7] at h
  push_neg at hc7
  rw [goSlice_pos (by omega) (by omega) (by omega)] at h
  dsimp only at h
  set lenBytes := (inp.drop (s + 1).toNat).take (s + 1 + (kk : Int) - (s + 1)).toNat
    with hlbdef
  by_cases hc8 : (beVal lenBytes : Int) ≤ 55
  · rw [if_pos hc8] at h
    exact absurd h (by simp)
  rw [if_neg hc8] at h
  by_cases hc9 : 2 ^ 63 - 1 < (beVal lenBytes : Int)
  · rw [if_pos hc9] at h
    exact absurd h (by simp)
  rw [if_neg hc9] at h
  simp only [Res.ok.injEq, Prod.mk.injEq] at h
  obtain ⟨hbv, hd, hsz⟩ := h
  have hlb1 : lenBytes.length = kk := by
    rw [hlbdef]
    rw [List.length_take, List.length_drop]
    omega
  have hhead : lenBytes.headI = b1 := by
    rw [hlbdef, hdrop]
    have : (s + 1 + (kk : Int) - (s + 1)).toNat = kk := by omega
    rw [this]
    rcases Nat.exists_eq_add_of_le hkk1 with ⟨m, hm⟩
    rw [show kk = m + 1 by omega]
    rfl
  refine ⟨kk, hkk1, hkk8, hbv ▸ hmode, hd.symm, by omega, hc4, lenBytes, ?_, hlb1,
    hsz.symm, by omega, by omega, .inr (by rw [hhead]; exact hc6)⟩
  rw [← hd]
  exact goSlice_pos (by omega) (by omega) (by omega)

/-- Claim C8: for every byte buffer and every valid start index `j`,
`ReadSize` returns exactly `(true, j, 1)` if and only if the byte at
index `j` is at most `0x7F`. -/
theorem C8_single_byte_slot :
    ∀ (inp : List Nat) (j : Nat) (hj : j < inp.length),
      (∀ x ∈ inp, x ≤ 255) → (inp.length : Int) ≤ 2 ^ 63 - 9 →
      (ReadSize inp (j : Int) = .ok (true, (j : Int), 1) ↔ inp.get ⟨j, hj⟩ ≤ 0x7f) := by
  intro inp j hj hb hlen
  have h0 : inp.length ≠ 0 := by omega
  have hidx : idx inp (j : Int) = some (inp.get ⟨j, hj⟩) := by
    unfold idx
    rw [dif_pos ⟨by omega, by omega⟩]
    exact congrArg (fun t => some (inp.get t)) (Fin.ext (show ((j : Int)).toNat = j by omega))
  constructor
  · intro h
    obtain ⟨f, hf, -, hcases⟩ := ReadSize_ok_inv hb hlen (by omega) h
    have hfj : f = inp.get ⟨j, hj⟩ := by
      rw [hidx] at hf
      exact (Option.some_injective _ hf).symm
    subst hfj
    rcases hcases with ⟨h1, -⟩ | ⟨-, -, -, hd, -⟩ | ⟨-, -, hfalse, -⟩ | ⟨k, hk1, -, -, hd, -⟩
    · exact h1
    · omega
    · exact absurd hfalse (by simp)
    · omega
  · intro hf
    have hstep := ReadSize_eval h0 (by omega : ¬ (inp.length : Int) ≤ (j : Int)) hidx
    rw [if_pos hf] at hstep
    have hs1 : wrap64 ((j : Int) + 1) = (j : Int) + 1 :=
      wrap64_eq_self (by omega) (by omega)
    rw [hs1, show (j : Int) + 1 - 1 = (j : Int) by ring,
      wrap64_eq_self (by omega) (by omega)] at hstep
    exact hstep

/-- Closed witness for `C8_single_byte_slot`: the byte `0x41` at index 0
of `[0x41]` is at most `0x7F`, and `ReadSize` returns `(true, 0, 1)`. -/
theorem C8_single_byte_slot_witness :
    ReadSize [0x41] 0 = .ok (true, 0, 1) :=
  (C8_single_byte_slot [0x41] 0 (by decide) (by decide) (by decide)).mpr (by decide)

/-! ## Acceptance characterization of `DecodeString` at start index 0 -/

theorem idx_cons_zero (a : Nat) (l : List Nat) : idx (a :: l) 0 = some a := by
  unfold idx
  rw [dif_pos ⟨le_refl 0, by push_cast [List.length_cons]; omega⟩]
  rfl

theorem idx_cons_one (a b : Nat) (l : List Nat) : idx (a :: b :: l) 1 = some b := by
  unfold idx
  rw [dif_pos ⟨by norm_num, by push_cast [List.length_cons]; omega⟩]
  rfl

/-- The non-canonical two-byte short-string form of any single byte is
accepted by `DecodeString` and decodes to that byte. -/
theorem DecodeString_shortOne (b : Nat) : DecodeString [0x81, b] 0 = .ok [b] := by
  have hstep := @ReadSize_eval [0x81, b] 0 0x81 (by simp) (by simp)
    (idx_cons_zero _ _)
  rw [if_neg (by norm_num), if_pos (by norm_num)] at hstep
  have h1 : wrap64 ((0 : Int) + 1) = 1 := by decide
  rw [h1] at hstep
  norm_num at hstep
  have hrs : ReadSize [0x81, b] 0 = .ok (true, 1, 1) := hstep
  rw [DecodeString_eval_ok hrs]
  rw [if_neg (by simp), if_neg (by norm_num)]
  have h2 : wrap64 ((1 : Int) + 1) = 2 := by decide
  rw [h2, if_neg (by simp), if_neg (by simp),
    goSlice_pos (by norm_num) (by norm_num) (by simp)]
  rfl

/-- Soundness of `DecodeString` at start index 0 on byte buffers: every
accepted buffer is either the standard canonical RLP encoding of the
returned payload, or the non-canonical two-byte form `[0x81, b]` of a
single byte `b ≤ 0x7F`. -/
theorem DecodeString_ok_sound {inp out : List Nat} (hb : ∀ x ∈ inp, x ≤ 255)
    (hlen : (inp.length : Int) ≤ 2 ^ 63 - 9)
    (h : DecodeString inp 0 = .ok out) :
    inp = encodeString out ∨ ∃ b, b ≤ 0x7f ∧ out = [b] ∧ inp = [0x81, b] := by
  cases hrs : ReadSize inp 0 with
  | panics => rw [DecodeString, hrs] at h; simp at h
  | err e => rw [DecodeString, hrs] at h; simp at h
  | ok v =>
    obtain ⟨b0, d, sz⟩ := v
    rw [DecodeString_eval_ok hrs] at h
    obtain ⟨f, hfidx, hlt, hcases⟩ := ReadSize_ok_inv hb hlen (le_refl 0) hrs
    obtain ⟨f0, rest, rfl⟩ : ∃ f0 rest, inp = f0 :: rest := by
      cases inp with
      | nil => simp at hlt
      | cons a l => exact ⟨a, l, rfl⟩
    rw [idx_cons_zero] at hfidx
    replace hfidx : f0 = f := Option.some_injective _ hfidx
    subst hfidx
    rcases hcases with ⟨hf7, hb0, hd, hsz⟩ | ⟨hf80, hfb7, hb0, hd, hsz⟩ |
      ⟨hfc0, hff7, hb0, hd, hsz⟩ |
      ⟨k, hk1, hk8, hmode, hd, hdlen, h1len, lenBytes, hsl, hlblen, hsz, hsz56, hszmax, hlbhead⟩
    · -- single-byte item
      subst hb0
      have hd' : d = 0 := hd
      subst hd'
      subst hsz
      rw [if_neg (by simp), if_pos (by norm_num)] at h
      by_cases hex : 1 < ((f0 :: rest).length : Int)
      · rw [if_pos hex] at h; simp at h
      · rw [if_neg hex] at h
        have hrest0 : rest.length = 0 := by push_cast [List.length_cons] at hex; omega
        have hrest : rest = [] := List.length_eq_zero.mp hrest0
        subst hrest
        rw [idx_cons_zero] at h
        dsimp only at h
        simp only [Res.ok.injEq] at h
        subst h
        left
        rw [encodeString, if_pos ⟨by simp, by simpa using hf7⟩]
    · -- short string
      subst hb0
      have hd' : d = 1 := by omega
      subst hd'
      have hsz55 : 0 ≤ sz ∧ sz ≤ 55 := by omega
      rw [if_neg (by simp), if_neg (by norm_num)] at h
      have hw : wrap64 (1 + sz) = 1 + sz := wrap64_eq_self (by omega) (by omega)
      rw [hw] at h
      by_cases hc1 : ((f0 :: rest).length : Int) < 1 + sz
      · rw [if_pos hc1] at h; simp at h
      rw [if_neg hc1] at h
      by_cases hc2 : 1 + sz < ((f0 :: rest).length : Int)
      · rw [if_pos hc2] at h; simp at h
      rw [if_neg hc2] at h
      have hlen2 : (rest.length : Int) = sz := by push_cast [List.length_cons] at hc1 hc2; omega
      rw [goSlice_pos (by norm_num) (by omega) (by omega)] at h
      dsimp only at h
      simp only [Res.ok.injEq] at h
      have hdrop1 : (f0 :: rest).drop ((1 : Int)).toNat = rest := rfl
      rw [hdrop1] at h
      have htk : ((1 + sz - 1 : Int)).toNat = rest.length := by omega
      rw [htk, List.take_length] at h
      subst h
      by_cases hone : rest.length = 1
      · obtain ⟨b1, rfl⟩ := List.length_eq_one.mp hone
        have hf081 : f0 = 0x81 := by omega
        by_cases hble : b1 ≤ 0x7f
        · right
          exact ⟨b1, hble, rfl, by rw [hf081]⟩
        · left
          rw [encodeString, if_neg (by simpa using hble), if_pos (by simp)]
          rw [hf081]
          rfl
      · left
        rw [encodeString, if_neg (by simp [hone]), if_pos (by omega)]
        have hf0v : f0 = 0x80 + rest.length := by omega
        rw [hf0v]
    · -- short list: type mismatch
      subst hb0
      rw [if_pos rfl] at h
      simp at h
    · -- long form
      rcases hmode with ⟨hfA, hfB, hb0, hkval⟩ | ⟨-, -, hb0, -⟩
      · -- long string
        subst hb0
        have hd1 : d = 1 + (k : Int) := by omega
        rw [if_neg (by simp), if_neg (by intro hc; omega)] at h
        by_cases hov : d + sz < 2 ^ 63
        · have hw : wrap64 (d + sz) = d + sz := wrap64_eq_self (by omega) (by omega)
          rw [hw] at h
          by_cases hc1 : ((f0 :: rest).length : Int) < d + sz
          · rw [if_pos hc1] at h; simp at h
          rw [if_neg hc1] at h
          by_cases hc2 : d + sz < ((f0 :: rest).length : Int)
          · rw [if_pos hc2] at h; simp at h
          rw [if_neg hc2] at h
          have hdz : d + sz = ((f0 :: rest).length : Int) := by omega
          rw [goSlice_pos (by omega) (by omega) (by omega)] at h
          dsimp only at h
          simp only [Res.ok.injEq] at h
          have hdt : d.toNat = 1 + k := by omega
          have hszd : (d + sz - d : Int) = sz := by ring
          rw [hszd, hdt] at h
          have hdropk : (f0 :: rest).drop (1 + k) = rest.drop k := by
            rw [Nat.add_comm 1 k]
            exact List.drop_succ_cons
          rw [hdropk] at h
          have hol : ((rest.drop k).length : Int) = sz := by
            rw [List.length_drop]
            push_cast [List.length_cons] at hdz ⊢
            omega
          have htake : (rest.drop k).take sz.toNat = rest.drop k :=
            List.take_of_length_le (by omega)
          rw [htake] at h
          subst h
          -- lenBytes is the k length bytes right after the tag
          obtain ⟨-, -, -, hsleq⟩ := goSlice_some hsl
          have hlb : lenBytes = rest.take k := by
            rw [hsleq]
            have hq0 : ((0 + 1 : Int)).toNat = 1 := by norm_num
            have hq2 : ((d - (0 + 1) : Int)).toNat = k := by omega
            rw [hq0, hq2]
            rfl
          have hlbbytes : ∀ y ∈ lenBytes, y < 256 := by
            intro y hy
            rw [hlb] at hy
            have h1 : y ∈ rest := List.mem_of_mem_take hy
            have h2 : y ∈ f0 :: rest := by simp [h1]
            have := hb y h2
            omega
          have hlbne : lenBytes ≠ [] := by
            intro hc
            rw [hc] at hlblen
            simp at hlblen
            omega
          have hlbhead' : lenBytes.headI ≠ 0 := by
            rcases hlbhead with hk1' | hh
            · obtain ⟨x, hx⟩ := List.length_eq_one.mp (by omega : lenBytes.length = 1)
              rw [hx]
              rw [hx] at hsz
              have hbx : beVal [x] = x := by simp [beVal]
              rw [hbx] at hsz
              simp only [List.headI]
              omega
            · exact hh
          have hbv : beVal lenBytes = (rest.drop k).length := by omega
          have hbb : beBytes (rest.drop k).length = lenBytes := by
            rw [← hbv]
            exact beBytes_of_canonical hlbne hlbhead' hlbbytes
          left
          rw [encodeString, if_neg (by intro hc; omega), if_neg (by intro hc; omega)]
          rw [hbb, hlblen]
          have hfv : f0 = 0xb7 + k := by omega
          rw [hfv]
          have : lenBytes ++ rest.drop k = rest := by
            rw [hlb]
            exact List.take_append_drop k rest
          rw [this]
        · -- end-index overflow: rejected as extra bytes, not accepted
          have hwneg : wrap64 (d + sz) < 0 := by
            unfold wrap64
            omega
          rw [if_neg (by omega), if_pos (by omega)] at h
          simp at h
      · -- long list: type mismatch
        subst hb0
        rw [if_pos rfl] at h
        simp at h

/-- Completeness of `DecodeString` at start index 0: the standard
canonical RLP encoding of any byte string (that fits in a Go buffer) is
accepted and decodes back to the string. -/
theorem DecodeString_encode_complete {out : List Nat} (hb : ∀ x ∈ out, x ≤ 255)
    (hlen : ((encodeString out).length : Int) ≤ 2 ^ 63 - 9) :
    DecodeString (encodeString out) 0 = .ok out := by
  by_cases hA : out.length = 1 ∧ out.headI ≤ 0x7f
  · -- single byte, canonical one-byte form
    obtain ⟨b1, rfl⟩ := List.length_eq_one.mp hA.1
    have hb1 : b1 ≤ 0x7f := by simpa using hA.2
    have henc : encodeString [b1] = [b1] := by
      rw [encodeString, if_pos (by simpa using hA)]
    rw [henc]
    have hstep := @ReadSize_eval [b1] 0 b1 (by simp) (by simp)
      (idx_cons_zero _ _)
    rw [if_pos hb1] at hstep
    rw [show wrap64 ((0 : Int) + 1) = 1 by decide,
      show wrap64 ((1 : Int) - 1) = 0 by decide] at hstep
    rw [DecodeString_eval_ok hstep, if_neg (by simp), if_pos (by norm_num),
      if_neg (by simp), idx_cons_zero]
  · by_cases hB : out.length ≤ 55
    · -- short string form
      have henc : encodeString out = (0x80 + out.length) :: out := by
        rw [encodeString, if_neg hA, if_pos hB]
      rw [henc] at hlen ⊢
      have hstep := @ReadSize_eval ((0x80 + out.length) :: out) 0 (0x80 + out.length)
        (by simp) (by push_cast [List.length_cons]; omega) (idx_cons_zero _ _)
      rw [if_neg (by omega), if_pos (by omega)] at hstep
      rw [show wrap64 ((0 : Int) + 1) = 1 by decide] at hstep
      rw [show 0x80 + out.length - 0x80 = out.length by omega] at hstep
      rw [DecodeString_eval_ok hstep, if_neg (by simp), if_neg (by simp)]
      rw [wrap64_eq_self (by omega) (by push_cast; omega)]
      rw [if_neg (by push_cast [List.length_cons]; omega),
        if_neg (by push_cast [List.length_cons]; omega)]
      rw [goSlice_pos (by norm_num) (by push_cast; omega)
        (by push_cast [List.length_cons]; omega)]
      rw [show ((1 + (out.length : Int) - 1)).toNat = out.length by omega]
      rw [show ((0x80 + out.length) :: out).drop ((1 : Int)).toNat = out from rfl]
      rw [List.take_length]
    · -- long string form
      push_neg at hB
      have hn0 : out.length ≠ 0 := by omega
      have hKpos : 1 ≤ (beBytes out.length).length := beBytes_length_pos hn0
      have henc : encodeString out =
          (0xb7 + (beBytes out.length).length) :: (beBytes out.length ++ out) := by
        rw [encodeString, if_neg hA, if_neg (by omega)]
      rw [henc] at hlen ⊢
      have hlen' : 1 + ((beBytes out.length).length + out.length) ≤ 2 ^ 63 - 9 := by
        push_cast [List.length_cons, List.length_append] at hlen
        omega
      have hK8 : (beBytes out.length).length ≤ 8 :=
        beBytes_length_le (by omega : out.length < 256 ^ 8)
      have hstep := @ReadSize_eval
        ((0xb7 + (beBytes out.length).length) :: (beBytes out.length ++ out))
        0 (0xb7 + (beBytes out.length).length)
        (by simp) (by push_cast [List.length_cons]; omega) (idx_cons_zero _ _)
      rw [if_neg (by omega), if_neg (by omega), if_neg (by omega)] at hstep
      rw [show wrap64 ((0 : Int) + 1) = 1 by decide] at hstep
      rw [if_neg (by push_cast [List.length_cons, List.length_append]; omega)] at hstep
      rw [if_pos (by omega : 0xb8 ≤ 0xb7 + (beBytes out.length).length ∧
        0xb7 + (beBytes out.length).length ≤ 0xbf)] at hstep
      rw [decide_eq_true (by omega : 0xb8 ≤ 0xb7 + (beBytes out.length).length ∧
        0xb7 + (beBytes out.length).length ≤ 0xbf)] at hstep
      rw [show 0xb7 + (beBytes out.length).length - 0xb7 = (beBytes out.length).length
        by omega] at hstep
      by_cases hK1 : (beBytes out.length).length = 1
      · -- one length byte
        obtain ⟨x, hx⟩ := List.length_eq_one.mp hK1
        have hxval : x = out.length := by
          have := beVal_beBytes out.length
          rw [hx] at this
          simpa [beVal] using this
        subst hxval
        rw [if_pos (by simp [hK1])] at hstep
        rw [hK1] at hstep ⊢
        rw [hx, List.singleton_append] at hstep ⊢
        rw [idx_cons_one] at hstep
        dsimp only at hstep
        rw [if_neg (by push_cast; omega)] at hstep
        rw [show wrap64 ((1 : Int) + 1) = 2 by decide] at hstep
        rw [DecodeString_eval_ok hstep, if_neg (by simp), if_neg (by simp)]
        rw [wrap64_eq_self (by omega) (by push_cast; omega)]
        rw [if_neg (by push_cast [List.length_cons]; omega),
          if_neg (by push_cast [List.length_cons]; omega)]
        rw [goSlice_pos (by norm_num) (by push_cast; omega)
          (by push_cast [List.length_cons]; omega)]
        rw [show ((2 + (out.length : Int) - 2)).toNat = out.length by omega]
        rw [show ((0xb7 + 1) :: out.length :: out).drop ((2 : Int)).toNat = out from rfl]
        rw [List.take_length]
      · -- several length bytes
        rw [if_neg (by push_cast; omega)] at hstep
        obtain ⟨y, t, hyt⟩ := List.exists_cons_of_ne_nil
          ((not_iff_not.mpr (beBytes_eq_nil_iff out.length)).mpr hn0)
        have hyne : y ≠ 0 := by
          have := beBytes_head_ne_zero out.length hn0
          rw [hyt] at this
          simpa using this
        rw [hyt, List.cons_append] at hstep
        rw [idx_cons_one] at hstep
        dsimp only at hstep
        rw [if_neg hyne] at hstep
        rw [← List.cons_append, ← hyt] at hstep
        rw [wrap64_eq_self (by omega) (by push_cast; omega)] at hstep
        rw [if_neg (by push_cast [List.length_cons, List.length_append]; omega)] at hstep
        rw [goSlice_pos (by norm_num) (by push_cast; omega)
          (by push_cast [List.length_cons, List.length_append]; omega)] at hstep
        rw [show ((1 + ((beBytes out.length).length : Int) - 1)).toNat =
          (beBytes out.length).length by omega] at hstep
        rw [show ((0xb7 + (beBytes out.length).length) ::
          (beBytes out.length ++ out)).drop ((1 : Int)).toNat =
          beBytes out.length ++ out from rfl] at hstep
        rw [List.take_left] at hstep
        dsimp only at hstep
        rw [beVal_beBytes] at hstep
        rw [if_neg (by push_cast; omega), if_neg (by push_cast; omega)] at hstep
        rw [DecodeString_eval_ok hstep, if_neg (by simp), if_neg (by intro hc; omega)]
        rw [wrap64_eq_self (by omega) (by push_cast; omega)]
        rw [if_neg (by push_cast [List.length_cons, List.length_append]; omega),
          if_neg (by push_cast [List.length_cons, List.length_append]; omega)]
        rw [goSlice_pos (by push_cast; omega) (by push_cast; omega)
          (by push_cast [List.length_cons, List.length_append]; omega)]
        rw [show ((1 + ((beBytes out.length).length : Int) + (out.length : Int) -
          (1 + ((beBytes out.length).length : Int)))).toNat = out.length by omega]
        rw [show ((1 + ((beBytes out.length).length : Int))).toNat =
          1 + (beBytes out.length).length by omega]
        rw [show ((0xb7 + (beBytes out.length).length) ::
          (beBytes out.length ++ out)).drop (1 + (beBytes out.length).length) =
          (beBytes out.length ++ out).drop (beBytes out.length).length from
          by rw [Nat.add_comm 1 (beBytes out.length).length]; exact List.drop_succ_cons]
        rw [List.drop_left, List.take_length]

/-- Claim C2 (corrected): the string half of the round-trip law holds for
every accepted byte buffer except the non-canonical single-byte forms:
if `DecodeString B 0` accepts and `B` is not `[0x81, b]` for some byte
`b ≤ 0x7F`, then encoding the returned payload by the standard RLP rules
yields exactly `B`.  The list half fails on the code: `DecodeList`
returns the sub-items' payloads without their headers, so concatenating
the elements and prefixing the standard list header does not reconstruct
the input: for `B = [0xC1, 0xC0]` the elements are `[[]]` and the
reconstruction yields `[0xC0] ≠ B`. -/
theorem C2_round_trip_amended :
    (∀ (inp out : List Nat), (∀ x ∈ inp, x ≤ 255) →
      (inp.length : Int) ≤ 2 ^ 63 - 9 →
      DecodeString inp 0 = .ok out →
      (∀ b : Nat, b ≤ 0x7f → inp ≠ [0x81, b]) →
      encodeString out = inp) ∧
    (DecodeList [0xc1, 0xc0] 0 = .ok [[]] ∧
      encodeListPayload (List.foldr (· ++ ·) [] [[]]) = [0xc0] ∧
      ([0xc0] : List Nat) ≠ [0xc1, 0xc0]) := by
  constructor
  · intro inp out hb hlen h hex
    rcases DecodeString_ok_sound hb hlen h with h1 | ⟨b, hble, -, hinp⟩
    · exact h1.symm
    · exact absurd hinp (hex b hble)
  · exact ⟨by decide, by decide, by decide⟩

/-- Closed witness for `C2_round_trip_amended`: its string half applied
to the accepted buffer `[0x83, 0x64, 0x6F, 0x67]` (the string "dog"). -/
theorem C2_round_trip_amended_witness :
    encodeString [0x64, 0x6f, 0x67] = [0x83, 0x64, 0x6f, 0x67] :=
  C2_round_trip_amended.1 [0x83, 0x64, 0x6f, 0x67] [0x64, 0x6f, 0x67] (by decide)
    (by decide) (by decide) (by intro b hble; simp)

/-- Claim C4 (corrected): canonicality holds except for single bytes.
Every byte buffer accepted by `DecodeString` at index 0 is the standard
canonical RLP encoding of its payload or the two-byte short-string form
`[0x81, b]` of a single byte `b ≤ 0x7F`; the canonical encoding of every
byte string is accepted; and the non-canonical `[0x81, b]` is accepted
as well (decoding to `[b]`), so one-byte string values have exactly two
accepted encodings and every other value exactly one. -/
theorem C4_canonicality_amended :
    (∀ (inp out : List Nat), (∀ x ∈ inp, x ≤ 255) →
      (inp.length : Int) ≤ 2 ^ 63 - 9 →
      DecodeString inp 0 = .ok out →
      inp = encodeString out ∨ ∃ b, b ≤ 0x7f ∧ out = [b] ∧ inp = [0x81, b]) ∧
    (∀ out : List Nat, (∀ x ∈ out, x ≤ 255) →
      ((encodeString out).length : Int) ≤ 2 ^ 63 - 9 →
      DecodeString (encodeString out) 0 = .ok out) ∧
    (∀ b : Nat, DecodeString [0x81, b] 0 = .ok [b]) :=
  ⟨fun _ _ hb hlen h => DecodeString_ok_sound hb hlen h,
   fun _ hb hlen => DecodeString_encode_complete hb hlen,
   DecodeString_shortOne⟩

/-- Closed witness for `C4_canonicality_amended`: all three parts at
concrete inputs. -/
theorem C4_canonicality_amended_witness :
    ([0x41] = encodeString [0x41] ∨
      ∃ b, b ≤ 0x7f ∧ [0x41] = [b] ∧ ([0x41] : List Nat) = [0x81, b]) ∧
    DecodeString (encodeString [0x64, 0x6f, 0x67]) 0 = .ok [0x64, 0x6f, 0x67] ∧
    DecodeString [0x81, 0x41] 0 = .ok [0x41] :=
  ⟨C4_canonicality_amended.1 [0x41] [0x41] (by decide) (by decide) (by decide),
   C4_canonicality_amended.2.1 [0x64, 0x6f, 0x67] (by decide) (by decide),
   C4_canonicality_amended.2.2 0x41⟩
